import Mathlib

/-!
Verification development for the LogParser repository (src/log_parser.py).

Byte strings are modelled as `List Nat` (each entry a byte value).  The
mutable `bytearray` buffer of `LogParser` becomes explicit state passing:
every operation returns the new parser state.  Python exceptions raised by
`FrameFormat.extract_length_field` are modelled with `Except`; the
`try/except` in `LogParser.find_next_frame` becomes a `match` on that
`Except` value.
-/

namespace LogParserSpec

/-- Result of a Python `raise` that `find_next_frame` can observe:
`extract_length_field` raises `ValueError`, indexing raises `IndexError`. -/
inductive PyErr where
  | valueError
  | indexError
deriving DecidableEq

/-- `matchesAt buf pat i` holds when `pat` occurs in `buf` starting at
index `i` (the meaning of a hit of Python `bytes.find`). -/
def matchesAt (buf pat : List Nat) (i : Nat) : Prop :=
  i + pat.length ≤ buf.length ∧ (buf.drop i).take pat.length = pat

instance (buf pat : List Nat) (i : Nat) : Decidable (matchesAt buf pat i) := by
  unfold matchesAt; infer_instance

/-- Python `buf.find(pat, start)`: the smallest index `i ≥ start` at which
`pat` occurs in `buf` (`none` models Python's `-1`). -/
def bfind (buf pat : List Nat) (start : Nat) : Option Nat :=
  (List.range (buf.length + 1)).find? fun i => decide (start ≤ i ∧ matchesAt buf pat i)

/-- Embeds the `FrameFormat` configuration class of `log_parser.py`.
The Python class carries these as class attributes ("to change the frame
format, modify the attributes of this class"); a structure value is one
such choice of attributes. -/
structure FrameFormat where
  FRAME_START : List Nat
  FRAME_END : List Nat
  LENGTH_FIELD_OFFSET : Nat
  LENGTH_FIELD_SIZE : Nat
  LENGTH_FIELD_BIG_ENDIAN : Bool
  TIME_MARKER : List Nat
  TIME_FRAME_LENGTH : Nat
deriving DecidableEq

/-- Property `min_frame_size` of `FrameFormat`:
`len(FRAME_START) + LENGTH_FIELD_SIZE + len(FRAME_END)`. -/
def FrameFormat.min_frame_size (fmt : FrameFormat) : Nat :=
  fmt.FRAME_START.length + fmt.LENGTH_FIELD_SIZE + fmt.FRAME_END.length

/-- Property `length_field_end` of `FrameFormat`:
`LENGTH_FIELD_OFFSET + LENGTH_FIELD_SIZE`. -/
def FrameFormat.length_field_end (fmt : FrameFormat) : Nat :=
  fmt.LENGTH_FIELD_OFFSET + fmt.LENGTH_FIELD_SIZE

/-- Property `time_timestamp_size` of `FrameFormat`:
`TIME_FRAME_LENGTH - len(TIME_MARKER)` (Python integers may go negative,
hence `Int`). -/
def FrameFormat.time_timestamp_size (fmt : FrameFormat) : Int :=
  (fmt.TIME_FRAME_LENGTH : Int) - (fmt.TIME_MARKER.length : Int)

/-- `FrameFormat.parse_length`: decode the length-field bytes.  Dedicated
paths for 2- and 4-byte fields, generic byte-by-byte accumulation
otherwise, exactly as in the source.  Python indexing `length_bytes[i]` is
written `getD i 0`; in-parser calls always pass exactly
`LENGTH_FIELD_SIZE` bytes, so the default is never consulted there. -/
def FrameFormat.parse_length (fmt : FrameFormat) (length_bytes : List Nat) : Nat :=
  if fmt.LENGTH_FIELD_SIZE = 2 then
    if fmt.LENGTH_FIELD_BIG_ENDIAN then
      (length_bytes.getD 0 0 <<< 8) ||| length_bytes.getD 1 0
    else
      (length_bytes.getD 1 0 <<< 8) ||| length_bytes.getD 0 0
  else if fmt.LENGTH_FIELD_SIZE = 4 then
    if fmt.LENGTH_FIELD_BIG_ENDIAN then
      (length_bytes.getD 0 0 <<< 24) ||| (length_bytes.getD 1 0 <<< 16) |||
        (length_bytes.getD 2 0 <<< 8) ||| length_bytes.getD 3 0
    else
      (length_bytes.getD 3 0 <<< 24) ||| (length_bytes.getD 2 0 <<< 16) |||
        (length_bytes.getD 1 0 <<< 8) ||| length_bytes.getD 0 0
  else
    if fmt.LENGTH_FIELD_BIG_ENDIAN then
      length_bytes.foldl (fun result byte => (result <<< 8) ||| byte) 0
    else
      length_bytes.reverse.foldl (fun result byte => (result <<< 8) ||| byte) 0

/-- `FrameFormat.extract_length_field`: raises `ValueError` when the data
is shorter than `length_field_end`, otherwise parses the slice
`data[LENGTH_FIELD_OFFSET:length_field_end]`. -/
def FrameFormat.extract_length_field (fmt : FrameFormat) (data : List Nat) :
    Except PyErr (Nat × List Nat) :=
  if data.length < fmt.length_field_end then .error .valueError
  else
    let length_bytes := (data.take fmt.length_field_end).drop fmt.LENGTH_FIELD_OFFSET
    .ok (fmt.parse_length length_bytes, length_bytes)

/-- The module-level `DEFAULT_FORMAT = FrameFormat()` instance: the class
attribute values of `FrameFormat`. -/
def DEFAULT_FORMAT : FrameFormat :=
  { FRAME_START := [0x7e]
    FRAME_END := [0x7e]
    LENGTH_FIELD_OFFSET := 1
    LENGTH_FIELD_SIZE := 2
    LENGTH_FIELD_BIG_ENDIAN := true
    TIME_MARKER := [0xaa, 0xaa]
    TIME_FRAME_LENGTH := 8 }

/-- The `self.stats` dictionary of `LogParser`. -/
structure Stats where
  frames_found : Nat
  time_frames_found : Nat
  invalid_frames : Nat
  bytes_processed : Nat
deriving DecidableEq

/-- The state of a `LogParser` instance: its configuration, its byte
buffer and its stats dictionary. -/
structure LogParser where
  frame_format : FrameFormat
  buffer : List Nat
  stats : Stats
deriving DecidableEq

/-- `LogParser.__init__(frame_format=None)`: empty buffer, zero stats,
`frame_format or DEFAULT_FORMAT`. -/
def LogParser.init (frame_format : Option FrameFormat) : LogParser :=
  { frame_format := frame_format.getD DEFAULT_FORMAT
    buffer := []
    stats := ⟨0, 0, 0, 0⟩ }

/-- `LogParser.process_data` (the spec's `ingest`): append to the buffer
and add `len(data)` to `bytes_processed`. -/
def LogParser.process_data (p : LogParser) (data : List Nat) : LogParser :=
  { p with
    buffer := p.buffer ++ data
    stats := { p.stats with bytes_processed := p.stats.bytes_processed + data.length } }

/-- The recovery block of `find_next_frame` (it appears three times in the
source, differing only in the search start): look for `FRAME_END` from
index `start`; on a hit, emit the buffer up to and including the end
marker and count an invalid frame, otherwise wait for more data. -/
def recover_frame (fmt : FrameFormat) (buf : List Nat) (s : Stats) (start : Nat) :
    Option (List Nat) × LogParser :=
  match bfind buf fmt.FRAME_END start with
  | none => (none, ⟨fmt, buf, s⟩)
  | some end_idx =>
      let frame_end_idx := end_idx + fmt.FRAME_END.length
      (some (buf.take frame_end_idx),
        ⟨fmt, buf.drop frame_end_idx,
          { s with invalid_frames := s.invalid_frames + 1 }⟩)

/-- The time-record branch of `find_next_frame`, entered with the buffer
already advanced to the marker. -/
def handle_time (fmt : FrameFormat) (buf : List Nat) (s : Stats) :
    Option (List Nat) × LogParser :=
  if fmt.TIME_FRAME_LENGTH ≤ buf.length then
    (some (buf.take fmt.TIME_FRAME_LENGTH),
      ⟨fmt, buf.drop fmt.TIME_FRAME_LENGTH,
        { s with time_frames_found := s.time_frames_found + 1 }⟩)
  else (none, ⟨fmt, buf, s⟩)

/-- The frame branch of `find_next_frame`, entered with the buffer already
advanced to the marker: minimum-size check, length-field extraction with
its `except` recovery, then the declared-size checks. -/
def handle_frame (fmt : FrameFormat) (buf : List Nat) (s : Stats) :
    Option (List Nat) × LogParser :=
  if buf.length < fmt.min_frame_size then (none, ⟨fmt, buf, s⟩)
  else
    match fmt.extract_length_field buf with
    | .error _ => recover_frame fmt buf s fmt.FRAME_START.length
    | .ok (length, _) =>
        let expected_frame_size := fmt.length_field_end + length + fmt.FRAME_END.length
        if buf.length < expected_frame_size then
          recover_frame fmt buf s fmt.length_field_end
        else
          let actual_end :=
            (buf.take expected_frame_size).drop (expected_frame_size - fmt.FRAME_END.length)
          if actual_end = fmt.FRAME_END then
            (some (buf.take expected_frame_size),
              ⟨fmt, buf.drop expected_frame_size,
                { s with frames_found := s.frames_found + 1 }⟩)
          else recover_frame fmt buf s fmt.length_field_end

/-- `LogParser.find_next_frame` (the spec's `take_next`): find the
earliest `TIME_MARKER` and `FRAME_START` occurrences, clear the buffer
when neither occurs, otherwise drop the bytes before the earlier marker
(on a tie the time entry wins, as with Python's stable sort) and dispatch
to the matching branch. -/
def LogParser.find_next_frame (p : LogParser) : Option (List Nat) × LogParser :=
  let fmt := p.frame_format
  match bfind p.buffer fmt.TIME_MARKER 0, bfind p.buffer fmt.FRAME_START 0 with
  | none, none => (none, ⟨fmt, [], p.stats⟩)
  | some time_frame_idx, none => handle_time fmt (p.buffer.drop time_frame_idx) p.stats
  | none, some frame_start_idx => handle_frame fmt (p.buffer.drop frame_start_idx) p.stats
  | some time_frame_idx, some frame_start_idx =>
      if time_frame_idx ≤ frame_start_idx then
        handle_time fmt (p.buffer.drop time_frame_idx) p.stats
      else
        handle_frame fmt (p.buffer.drop frame_start_idx) p.stats

/-- One drain loop of `process_stream`: call `find_next_frame` until it
returns `None`, collecting the yielded frames.  `fuel` bounds the number
of calls (Python's `while True` loop); every caller below passes enough
fuel for the loop to reach its `None` exit. -/
def drain : Nat → LogParser → List (List Nat) × LogParser
  | 0, p => ([], p)
  | fuel + 1, p =>
      match p.find_next_frame with
      | (none, q) => ([], q)
      | (some frame, q) =>
          let rest := drain fuel q
          (frame :: rest.1, rest.2)

/-- `LogParser.process_stream`: per chunk read from the stream,
`process_data` then a drain loop; after the stream is exhausted, one final
drain loop over the remaining buffer. -/
def process_stream (fuel : Nat) (p : LogParser) : List (List Nat) → List (List Nat) × LogParser
  | [] => drain fuel p
  | chunk :: chunks =>
      let p1 := p.process_data chunk
      let step := drain fuel p1
      let rest := process_stream fuel step.2 chunks
      (step.1 ++ rest.1, rest.2)

/-! ### Properties of the substring search `bfind` -/

theorem bfind_eq_some {buf pat : List Nat} {start i : Nat}
    (h : bfind buf pat start = some i) : start ≤ i ∧ matchesAt buf pat i := by
  unfold bfind at h
  have hp := List.find?_some h
  simp only [decide_eq_true_eq] at hp
  exact hp

theorem bfind_eq_none {buf pat : List Nat} {start : Nat}
    (h : bfind buf pat start = none) : ∀ i, start ≤ i → ¬ matchesAt buf pat i := by
  intro i hsi hm
  have hle : i ≤ buf.length := le_trans (Nat.le_add_right i pat.length) hm.1
  have hmem : i ∈ List.range (buf.length + 1) := List.mem_range.mpr (Nat.lt_succ_of_le hle)
  exact List.find?_eq_none.mp h i hmem (decide_eq_true ⟨hsi, hm⟩)

theorem bfind_zero_of_matchesAt {buf pat : List Nat} (h : matchesAt buf pat 0) :
    bfind buf pat 0 = some 0 := by
  unfold bfind
  rw [List.range_succ_eq_map]
  exact List.find?_cons_of_pos _ (decide_eq_true ⟨Nat.le_refl 0, h⟩)

theorem infix_of_matchesAt {buf pat : List Nat} {i : Nat} (h : matchesAt buf pat i) :
    pat <:+: buf := by
  obtain ⟨hlen, htake⟩ := h
  have h2 : buf = buf.take i ++ (pat ++ (buf.drop i).drop pat.length) := by
    nth_rewrite 1 [← List.take_append_drop i buf]
    congr 1
    nth_rewrite 1 [← List.take_append_drop pat.length (buf.drop i)]
    rw [htake]
  exact ⟨buf.take i, (buf.drop i).drop pat.length, by rw [List.append_assoc]; exact h2.symm⟩

theorem not_infix_bfind_eq_none {buf pat : List Nat} (h : ¬ pat <:+: buf) :
    bfind buf pat 0 = none := by
  cases hb : bfind buf pat 0 with
  | none => rfl
  | some i => exact absurd (infix_of_matchesAt (bfind_eq_some hb).2) h

/-! ### Shift-and-or arithmetic used by `parse_length` -/

theorem shiftLeft_lor_of_lt {b n : Nat} (a : Nat) (hb : b < 2 ^ n) :
    (a <<< n) ||| b = a * 2 ^ n + b := by
  apply Nat.eq_of_testBit_eq
  intro j
  rw [Nat.testBit_or, Nat.testBit_shiftLeft, Nat.mul_comm a (2 ^ n),
    Nat.testBit_mul_pow_two_add a hb j]
  by_cases hj : j < n
  · simp [hj, Nat.not_le.mpr hj]
  · have hge : n ≤ j := Nat.le_of_not_lt hj
    have hbf : b.testBit j = false :=
      Nat.testBit_eq_false_of_lt (lt_of_lt_of_le hb (Nat.pow_le_pow_right (by norm_num) hge))
    simp [hj, hge, hbf]

theorem shiftLeft8_lor {b : Nat} (a : Nat) (hb : b < 256) : (a <<< 8) ||| b = a * 256 + b := by
  have h := shiftLeft_lor_of_lt a (show b < 2 ^ 8 by omega)
  simpa using h

/-- Reference value from the claim: the unsigned integer whose base-256
digits are the given bytes, most significant byte first. -/
def beVal (bs : List Nat) : Nat := bs.foldl (fun acc d => acc * 256 + d) 0

theorem foldl_shift_eq_foldl_mul :
    ∀ (bs : List Nat), (∀ x ∈ bs, x < 256) → ∀ a,
      bs.foldl (fun result byte => (result <<< 8) ||| byte) a =
        bs.foldl (fun acc d => acc * 256 + d) a := by
  intro bs
  induction bs with
  | nil => intro _ _; rfl
  | cons b rest ih =>
      intro h a
      have hb : b < 256 := h b (List.mem_cons_self b rest)
      have hrest : ∀ x ∈ rest, x < 256 := fun x hx => h x (List.mem_cons_of_mem b hx)
      simp only [List.foldl_cons]
      rw [shiftLeft8_lor a hb]
      exact ih hrest (a * 256 + b)

theorem length_eq_four {l : List Nat} (h : l.length = 4) :
    ∃ a b c d, l = [a, b, c, d] := by
  rcases l with _ | ⟨a, _ | ⟨b, _ | ⟨c, _ | ⟨d, rest⟩⟩⟩⟩
  all_goals simp only [List.length_cons, List.length_nil] at h
  · omega
  · omega
  · omega
  · omega
  · refine ⟨a, b, c, d, ?_⟩
    have hrest : rest = [] := List.length_eq_zero.mp (by omega)
    simp [hrest]

/-! ### Claim C9: the length-field decode -/

/-- C9 (confirmed): for every configuration and every byte sequence of
length exactly `LENGTH_FIELD_SIZE` (any size, not only 2 or 4),
`parse_length` returns the unsigned integer whose base-256 digits are the
bytes, most significant first when big-endian and least significant first
otherwise; in particular the dedicated 2- and 4-byte paths agree with the
generic byte-by-byte accumulation. -/
theorem c9_parse_length_base256 (fmt : FrameFormat) (b : List Nat)
    (hsz : 1 ≤ fmt.LENGTH_FIELD_SIZE) (hlen : b.length = fmt.LENGTH_FIELD_SIZE)
    (hbytes : ∀ x ∈ b, x < 256) :
    fmt.parse_length b =
      if fmt.LENGTH_FIELD_BIG_ENDIAN then beVal b else beVal b.reverse := by
  have hpow16 : (2 : Nat) ^ 16 = 65536 := by norm_num
  have hpow24 : (2 : Nat) ^ 24 = 16777216 := by norm_num
  unfold FrameFormat.parse_length
  by_cases h2 : fmt.LENGTH_FIELD_SIZE = 2
  · rw [if_pos h2]
    obtain ⟨b0, b1, rfl⟩ := List.length_eq_two.mp (show b.length = 2 by omega)
    have hb0 : b0 < 256 := hbytes b0 (by simp)
    have hb1 : b1 < 256 := hbytes b1 (by simp)
    by_cases hbe : fmt.LENGTH_FIELD_BIG_ENDIAN
    · rw [if_pos hbe, if_pos hbe]
      simp only [List.getD_cons_zero, List.getD_cons_succ]
      rw [shiftLeft8_lor b0 hb1]
      simp [beVal]
    · rw [if_neg hbe, if_neg hbe]
      simp only [List.getD_cons_zero, List.getD_cons_succ]
      rw [shiftLeft8_lor b1 hb0]
      have hrev : ([b0, b1] : List Nat).reverse = [b1, b0] := by rfl
      rw [hrev]
      simp [beVal]
  · by_cases h4 : fmt.LENGTH_FIELD_SIZE = 4
    · rw [if_neg h2, if_pos h4]
      obtain ⟨b0, b1, b2, b3, rfl⟩ := length_eq_four (show b.length = 4 by omega)
      have hb0 : b0 < 256 := hbytes b0 (by simp)
      have hb1 : b1 < 256 := hbytes b1 (by simp)
      have hb2 : b2 < 256 := hbytes b2 (by simp)
      have hb3 : b3 < 256 := hbytes b3 (by simp)
      by_cases hbe : fmt.LENGTH_FIELD_BIG_ENDIAN
      · rw [if_pos hbe, if_pos hbe]
        simp only [List.getD_cons_zero, List.getD_cons_succ]
        rw [Nat.lor_assoc, Nat.lor_assoc, shiftLeft8_lor b2 hb3,
          shiftLeft_lor_of_lt b1 (show b2 * 256 + b3 < 2 ^ 16 by omega),
          shiftLeft_lor_of_lt b0
            (show b1 * 2 ^ 16 + (b2 * 256 + b3) < 2 ^ 24 by omega)]
        simp [beVal]
        omega
      · rw [if_neg hbe, if_neg hbe]
        simp only [List.getD_cons_zero, List.getD_cons_succ]
        rw [Nat.lor_assoc, Nat.lor_assoc, shiftLeft8_lor b1 hb0,
          shiftLeft_lor_of_lt b2 (show b1 * 256 + b0 < 2 ^ 16 by omega),
          shiftLeft_lor_of_lt b3
            (show b2 * 2 ^ 16 + (b1 * 256 + b0) < 2 ^ 24 by omega)]
        have hrev : ([b0, b1, b2, b3] : List Nat).reverse = [b3, b2, b1, b0] := by rfl
        rw [hrev]
        simp [beVal]
        omega
    · rw [if_neg h2, if_neg h4]
      by_cases hbe : fmt.LENGTH_FIELD_BIG_ENDIAN
      · rw [if_pos hbe, if_pos hbe]
        exact foldl_shift_eq_foldl_mul b hbytes 0
      · rw [if_neg hbe, if_neg hbe]
        exact foldl_shift_eq_foldl_mul b.reverse
          (fun x hx => hbytes x (List.mem_reverse.mp hx)) 0

/-- Witness for C9 at the default format and the two-byte field `[1, 2]`. -/
theorem c9_parse_length_base256_witness :
    1 ≤ DEFAULT_FORMAT.LENGTH_FIELD_SIZE ∧
    ([1, 2] : List Nat).length = DEFAULT_FORMAT.LENGTH_FIELD_SIZE ∧
    DEFAULT_FORMAT.parse_length [1, 2] =
      (if DEFAULT_FORMAT.LENGTH_FIELD_BIG_ENDIAN then beVal [1, 2]
        else beVal ([1, 2] : List Nat).reverse) :=
  ⟨by decide, by decide,
    c9_parse_length_base256 DEFAULT_FORMAT [1, 2] (by decide) (by decide) (by decide)⟩

/-! ### Claim C4: the `min_frame_size` formula -/

/-- C4 (counterexample): for a format whose `LENGTH_FIELD_OFFSET` differs
from `len(FRAME_START)` — offset 0 behind a two-byte start marker — the
source's `min_frame_size` is not
`length_field_offset + length_field_size + len(frame_end)`. -/
theorem c4_counterexample :
    ¬ (FrameFormat.min_frame_size ⟨[0x10, 0x20], [0x30], 0, 1, true, [0xaa, 0xaa], 8⟩ =
        FrameFormat.LENGTH_FIELD_OFFSET ⟨[0x10, 0x20], [0x30], 0, 1, true, [0xaa, 0xaa], 8⟩ +
        FrameFormat.LENGTH_FIELD_SIZE ⟨[0x10, 0x20], [0x30], 0, 1, true, [0xaa, 0xaa], 8⟩ +
        (FrameFormat.FRAME_END ⟨[0x10, 0x20], [0x30], 0, 1, true, [0xaa, 0xaa], 8⟩).length) := by
  decide

/-- C4 (amended): `min_frame_size` equals
`len(FRAME_START) + LENGTH_FIELD_SIZE + len(FRAME_END)`; the claim's
formula holds exactly for configurations whose `LENGTH_FIELD_OFFSET`
equals `len(FRAME_START)`, as the default format's does. -/
theorem c4_min_frame_size (fmt : FrameFormat)
    (h : fmt.LENGTH_FIELD_OFFSET = fmt.FRAME_START.length) :
    fmt.min_frame_size =
      fmt.LENGTH_FIELD_OFFSET + fmt.LENGTH_FIELD_SIZE + fmt.FRAME_END.length := by
  unfold FrameFormat.min_frame_size
  omega

/-- Witness for C4 at the default format. -/
theorem c4_min_frame_size_witness :
    DEFAULT_FORMAT.LENGTH_FIELD_OFFSET = DEFAULT_FORMAT.FRAME_START.length ∧
    DEFAULT_FORMAT.min_frame_size =
      DEFAULT_FORMAT.LENGTH_FIELD_OFFSET + DEFAULT_FORMAT.LENGTH_FIELD_SIZE +
        DEFAULT_FORMAT.FRAME_END.length :=
  ⟨by decide, c4_min_frame_size DEFAULT_FORMAT (by decide)⟩

/-! ### Claim C3: construction-time validation of `FrameFormat` -/

/-- C3 (counterexample): a `FrameFormat` whose `TIME_FRAME_LENGTH` does
not exceed `len(TIME_MARKER)` is constructed without any rejection and is
usable — the parser runs on it and even emits a (1-byte) time record. -/
theorem c3_counterexample :
    FrameFormat.TIME_FRAME_LENGTH ⟨[0x7e], [0x7e], 1, 2, true, [0xaa, 0xaa], 1⟩ ≤
      (FrameFormat.TIME_MARKER ⟨[0x7e], [0x7e], 1, 2, true, [0xaa, 0xaa], 1⟩).length ∧
    (LogParser.find_next_frame
        ⟨⟨[0x7e], [0x7e], 1, 2, true, [0xaa, 0xaa], 1⟩, [0xaa, 0xaa, 5], ⟨0, 0, 0, 0⟩⟩).1 =
      some [0xaa] := by
  decide

/-- C3 (amended): `FrameFormat` performs no construction-time validation:
for every time-marker/record-length configuration, including the invalid
ones with `TIME_FRAME_LENGTH ≤ len(TIME_MARKER)`, a usable `FrameFormat`
value with exactly those attributes exists, its derived
`time_timestamp_size` computed (as a possibly non-positive integer) rather
than the configuration being rejected. -/
theorem c3_no_construction_validation (tm : List Nat) (tl : Nat)
    (h : tl ≤ tm.length) :
    ∃ fmt : FrameFormat, fmt.TIME_MARKER = tm ∧ fmt.TIME_FRAME_LENGTH = tl ∧
      fmt.TIME_FRAME_LENGTH ≤ fmt.TIME_MARKER.length ∧
      fmt.time_timestamp_size = (tl : Int) - (tm.length : Int) :=
  ⟨⟨[0x7e], [0x7e], 1, 2, true, tm, tl⟩, rfl, rfl, h, rfl⟩

/-- Witness for C3's amended statement at the invalid configuration
`TIME_MARKER = AA AA`, `TIME_FRAME_LENGTH = 1`. -/
theorem c3_no_construction_validation_witness :
    ∃ fmt : FrameFormat, fmt.TIME_MARKER = [0xaa, 0xaa] ∧ fmt.TIME_FRAME_LENGTH = 1 ∧
      fmt.TIME_FRAME_LENGTH ≤ fmt.TIME_MARKER.length ∧
      fmt.time_timestamp_size = (1 : Int) - ((2 : Nat) : Int) :=
  c3_no_construction_validation [0xaa, 0xaa] 1 (by decide)

/-! ### Claim C8: buffers containing no marker are discarded whole -/

theorem find_next_frame_no_marker (p : LogParser)
    (ht : ¬ p.frame_format.TIME_MARKER <:+: p.buffer)
    (hf : ¬ p.frame_format.FRAME_START <:+: p.buffer) :
    p.find_next_frame = (none, { p with buffer := [] }) := by
  simp only [LogParser.find_next_frame]
  rw [not_infix_bfind_eq_none ht, not_infix_bfind_eq_none hf]

/-- C8 (confirmed): when the buffer contains neither `TIME_MARKER` nor
`FRAME_START` as a substring, `find_next_frame` empties the buffer,
returns `None` and leaves every counter unchanged. -/
theorem c8_no_marker_discards_all (p : LogParser)
    (ht : ¬ p.frame_format.TIME_MARKER <:+: p.buffer)
    (hf : ¬ p.frame_format.FRAME_START <:+: p.buffer) :
    p.find_next_frame = (none, { p with buffer := [] }) :=
  find_next_frame_no_marker p ht hf

/-- Witness for C8 on the three-byte buffer `01 02 03`. -/
theorem c8_no_marker_discards_all_witness :
    ¬ DEFAULT_FORMAT.TIME_MARKER <:+: [1, 2, 3] ∧
    ¬ DEFAULT_FORMAT.FRAME_START <:+: [1, 2, 3] ∧
    LogParser.find_next_frame ⟨DEFAULT_FORMAT, [1, 2, 3], ⟨0, 0, 0, 0⟩⟩ =
      (none, ⟨DEFAULT_FORMAT, [], ⟨0, 0, 0, 0⟩⟩) :=
  ⟨by decide, by decide,
    c8_no_marker_discards_all ⟨DEFAULT_FORMAT, [1, 2, 3], ⟨0, 0, 0, 0⟩⟩ (by decide) (by decide)⟩

/-! ### Case characterizations of the `find_next_frame` branches -/

theorem recover_frame_eq (fmt : FrameFormat) (buf : List Nat) (s : Stats) (start : Nat) :
    recover_frame fmt buf s start = (none, ⟨fmt, buf, s⟩) ∨
    ∃ e, bfind buf fmt.FRAME_END start = some e ∧
      recover_frame fmt buf s start =
        (some (buf.take (e + fmt.FRAME_END.length)),
          ⟨fmt, buf.drop (e + fmt.FRAME_END.length),
            { s with invalid_frames := s.invalid_frames + 1 }⟩) := by
  unfold recover_frame
  cases h : bfind buf fmt.FRAME_END start with
  | none => exact Or.inl rfl
  | some e => exact Or.inr ⟨e, rfl, rfl⟩

theorem handle_time_eq (fmt : FrameFormat) (buf : List Nat) (s : Stats) :
    (fmt.TIME_FRAME_LENGTH ≤ buf.length ∧
      handle_time fmt buf s =
        (some (buf.take fmt.TIME_FRAME_LENGTH),
          ⟨fmt, buf.drop fmt.TIME_FRAME_LENGTH,
            { s with time_frames_found := s.time_frames_found + 1 }⟩)) ∨
    handle_time fmt buf s = (none, ⟨fmt, buf, s⟩) := by
  unfold handle_time
  by_cases h : fmt.TIME_FRAME_LENGTH ≤ buf.length
  · exact Or.inl ⟨h, by rw [if_pos h]⟩
  · exact Or.inr (by rw [if_neg h])

theorem handle_frame_eq (fmt : FrameFormat) (buf : List Nat) (s : Stats) :
    handle_frame fmt buf s = (none, ⟨fmt, buf, s⟩) ∨
    (∃ st e, bfind buf fmt.FRAME_END st = some e ∧
      (st = fmt.FRAME_START.length ∧ fmt.min_frame_size ≤ buf.length ∧
          buf.length < fmt.length_field_end ∨
        st = fmt.length_field_end) ∧
      handle_frame fmt buf s =
        (some (buf.take (e + fmt.FRAME_END.length)),
          ⟨fmt, buf.drop (e + fmt.FRAME_END.length),
            { s with invalid_frames := s.invalid_frames + 1 }⟩)) ∨
    (∃ k, handle_frame fmt buf s =
      (some (buf.take k),
        ⟨fmt, buf.drop k, { s with frames_found := s.frames_found + 1 }⟩)) := by
  by_cases hmin : buf.length < fmt.min_frame_size
  · left
    unfold handle_frame
    rw [if_pos hmin]
  · cases hex : fmt.extract_length_field buf with
    | error pe =>
        have hlt : buf.length < fmt.length_field_end := by
          unfold FrameFormat.extract_length_field at hex
          by_cases hl : buf.length < fmt.length_field_end
          · exact hl
          · rw [if_neg hl] at hex
            simp at hex
        have hbody : handle_frame fmt buf s = recover_frame fmt buf s fmt.FRAME_START.length := by
          unfold handle_frame
          rw [if_neg hmin, hex]
        rcases recover_frame_eq fmt buf s fmt.FRAME_START.length with h | ⟨e, hb, h⟩
        · left; rw [hbody, h]
        · right; left
          exact ⟨fmt.FRAME_START.length, e, hb,
            Or.inl ⟨rfl, Nat.le_of_not_lt hmin, hlt⟩, by rw [hbody, h]⟩
    | ok val =>
        obtain ⟨length, lb⟩ := val
        have hbody0 : handle_frame fmt buf s =
            (if buf.length < fmt.length_field_end + length + fmt.FRAME_END.length then
                recover_frame fmt buf s fmt.length_field_end
              else if (buf.take (fmt.length_field_end + length + fmt.FRAME_END.length)).drop
                    (fmt.length_field_end + length + fmt.FRAME_END.length -
                      fmt.FRAME_END.length) = fmt.FRAME_END then
                (some (buf.take (fmt.length_field_end + length + fmt.FRAME_END.length)),
                  ⟨fmt, buf.drop (fmt.length_field_end + length + fmt.FRAME_END.length),
                    { s with frames_found := s.frames_found + 1 }⟩)
              else recover_frame fmt buf s fmt.length_field_end) := by
          unfold handle_frame
          rw [if_neg hmin, hex]
        by_cases hexp : buf.length < fmt.length_field_end + length + fmt.FRAME_END.length
        · rw [if_pos hexp] at hbody0
          rcases recover_frame_eq fmt buf s fmt.length_field_end with h | ⟨e, hb, h⟩
          · left; rw [hbody0, h]
          · right; left
            exact ⟨fmt.length_field_end, e, hb, Or.inr rfl, by rw [hbody0, h]⟩
        · rw [if_neg hexp] at hbody0
          by_cases hend : (buf.take (fmt.length_field_end + length + fmt.FRAME_END.length)).drop
              (fmt.length_field_end + length + fmt.FRAME_END.length - fmt.FRAME_END.length) =
                fmt.FRAME_END
          · rw [if_pos hend] at hbody0
            right; right
            exact ⟨fmt.length_field_end + length + fmt.FRAME_END.length, hbody0⟩
          · rw [if_neg hend] at hbody0
            rcases recover_frame_eq fmt buf s fmt.length_field_end with h | ⟨e, hb, h⟩
            · left; rw [hbody0, h]
            · right; left
              exact ⟨fmt.length_field_end, e, hb, Or.inr rfl, by rw [hbody0, h]⟩

theorem find_next_frame_eq (p : LogParser) :
    p.find_next_frame = (none, ⟨p.frame_format, [], p.stats⟩) ∨
    (∃ i, p.find_next_frame = handle_time p.frame_format (p.buffer.drop i) p.stats) ∨
    (∃ i, p.find_next_frame = handle_frame p.frame_format (p.buffer.drop i) p.stats) := by
  simp only [LogParser.find_next_frame]
  cases ht : bfind p.buffer p.frame_format.TIME_MARKER 0 with
  | none =>
      cases hf : bfind p.buffer p.frame_format.FRAME_START 0 with
      | none => left; rfl
      | some fi => right; right; exact ⟨fi, rfl⟩
  | some ti =>
      cases hf : bfind p.buffer p.frame_format.FRAME_START 0 with
      | none => right; left; exact ⟨ti, rfl⟩
      | some fi =>
          by_cases hc : ti ≤ fi
          · right; left; exact ⟨ti, if_pos hc⟩
          · right; right; exact ⟨fi, if_neg hc⟩

/-! ### Claim C6: `take_next` terminates normally and absorbs anomalies -/

/-- C6 (confirmed): on every buffer content and every configuration,
`find_next_frame` returns either `None` with all counters untouched, or a
record with exactly one of the three record counters incremented (the
anomalous cases going to `invalid_frames`); the one Python operation that
can raise, `extract_length_field`, is matched on (`try/except`) so no
error propagates to the caller. -/
theorem c6_take_next_never_fails (p : LogParser) :
    (∃ q, p.find_next_frame = (none, q) ∧ q.stats = p.stats) ∨
    (∃ r q, p.find_next_frame = (some r, q) ∧
      (q.stats = { p.stats with frames_found := p.stats.frames_found + 1 } ∨
        q.stats = { p.stats with time_frames_found := p.stats.time_frames_found + 1 } ∨
        q.stats = { p.stats with invalid_frames := p.stats.invalid_frames + 1 })) := by
  rcases find_next_frame_eq p with h | ⟨i, h⟩ | ⟨i, h⟩
  · exact Or.inl ⟨_, h, rfl⟩
  · rcases handle_time_eq p.frame_format (p.buffer.drop i) p.stats with ⟨_, ht⟩ | ht
    · rw [ht] at h
      exact Or.inr ⟨_, _, h, Or.inr (Or.inl rfl)⟩
    · rw [ht] at h
      exact Or.inl ⟨_, h, rfl⟩
  · rcases handle_frame_eq p.frame_format (p.buffer.drop i) p.stats with
      hf | ⟨st, e, _, _, hf⟩ | ⟨k, hf⟩
    · rw [hf] at h
      exact Or.inl ⟨_, h, rfl⟩
    · rw [hf] at h
      exact Or.inr ⟨_, _, h, Or.inr (Or.inr rfl)⟩
    · rw [hf] at h
      exact Or.inr ⟨_, _, h, Or.inl rfl⟩

/-! ### Claim C7: consumed bytes are never re-examined -/

theorem emit_decomposition (buffer : List Nat) (i k : Nat) :
    (buffer.drop i).drop k <:+ buffer ∧
    ∃ d, buffer = d ++ (buffer.drop i).take k ++ (buffer.drop i).drop k := by
  constructor
  · exact (List.drop_suffix k (buffer.drop i)).trans (List.drop_suffix i buffer)
  · refine ⟨buffer.take i, ?_⟩
    rw [List.append_assoc, List.take_append_drop, List.take_append_drop]

/-- C7 (confirmed): after any `find_next_frame` call the buffer is a
contiguous suffix of the pre-call buffer, and when a record `r` is
returned the pre-call buffer is `d ++ r ++ post-call buffer` for some
dropped prefix `d`. -/
theorem c7_consumed_bytes_removed (p : LogParser) :
    p.find_next_frame.2.buffer <:+ p.buffer ∧
    ∀ r, p.find_next_frame.1 = some r →
      ∃ d, p.buffer = d ++ r ++ p.find_next_frame.2.buffer := by
  rcases find_next_frame_eq p with h | ⟨i, h⟩ | ⟨i, h⟩
  · rw [h]
    exact ⟨List.nil_suffix, fun r hr => by simp at hr⟩
  · rcases handle_time_eq p.frame_format (p.buffer.drop i) p.stats with ⟨_, ht⟩ | ht
    · rw [ht] at h
      rw [h]
      obtain ⟨h1, d, h2⟩ := emit_decomposition p.buffer i p.frame_format.TIME_FRAME_LENGTH
      exact ⟨h1, fun r hr => ⟨d, by rw [← Option.some_inj.mp hr]; exact h2⟩⟩
    · rw [ht] at h
      rw [h]
      exact ⟨List.drop_suffix i p.buffer, fun r hr => by simp at hr⟩
  · rcases handle_frame_eq p.frame_format (p.buffer.drop i) p.stats with
      hf | ⟨st, e, _, _, hf⟩ | ⟨k, hf⟩
    · rw [hf] at h
      rw [h]
      exact ⟨List.drop_suffix i p.buffer, fun r hr => by simp at hr⟩
    · rw [hf] at h
      rw [h]
      obtain ⟨h1, d, h2⟩ :=
        emit_decomposition p.buffer i (e + p.frame_format.FRAME_END.length)
      exact ⟨h1, fun r hr => ⟨d, by rw [← Option.some_inj.mp hr]; exact h2⟩⟩
    · rw [hf] at h
      rw [h]
      obtain ⟨h1, d, h2⟩ := emit_decomposition p.buffer i k
      exact ⟨h1, fun r hr => ⟨d, by rw [← Option.some_inj.mp hr]; exact h2⟩⟩

/-- Witness for C7: a buffer with one byte of garbage before a well-formed
frame decomposes as garbage ++ record ++ remaining buffer. -/
theorem c7_consumed_bytes_removed_witness :
    ∃ d, ([0, 0x7e, 0, 1, 0xab, 0x7e, 9] : List Nat) =
      d ++ [0x7e, 0, 1, 0xab, 0x7e] ++
        (LogParser.find_next_frame
          ⟨DEFAULT_FORMAT, [0, 0x7e, 0, 1, 0xab, 0x7e, 9], ⟨0, 0, 0, 0⟩⟩).2.buffer :=
  (c7_consumed_bytes_removed
    ⟨DEFAULT_FORMAT, [0, 0x7e, 0, 1, 0xab, 0x7e, 9], ⟨0, 0, 0, 0⟩⟩).2
    [0x7e, 0, 1, 0xab, 0x7e] (by decide)

/-! ### Claim C10: `bytes_processed` is modified only by `process_data` -/

/-- A call sequence against one parser instance: the spec's `ingest`
(`process_data`) and `take_next` (`find_next_frame`) operations. -/
inductive ParserOp where
  | ingest (data : List Nat) : ParserOp
  | take_next : ParserOp

/-- Run a call sequence, threading the parser state. -/
def run_ops (p : LogParser) : List ParserOp → LogParser
  | [] => p
  | ParserOp.ingest d :: ops => run_ops (p.process_data d) ops
  | ParserOp.take_next :: ops => run_ops p.find_next_frame.2 ops

/-- Total number of bytes handed to `process_data` by a call sequence. -/
def ingested_length : List ParserOp → Nat
  | [] => 0
  | ParserOp.ingest d :: ops => d.length + ingested_length ops
  | ParserOp.take_next :: ops => ingested_length ops

theorem find_next_frame_bytes_processed (p : LogParser) :
    p.find_next_frame.2.stats.bytes_processed = p.stats.bytes_processed := by
  rcases find_next_frame_eq p with h | ⟨i, h⟩ | ⟨i, h⟩
  · rw [h]
  · rcases handle_time_eq p.frame_format (p.buffer.drop i) p.stats with ⟨_, ht⟩ | ht <;>
      rw [ht] at h <;> rw [h]
  · rcases handle_frame_eq p.frame_format (p.buffer.drop i) p.stats with
      hf | ⟨st, e, _, _, hf⟩ | ⟨k, hf⟩ <;>
      rw [hf] at h <;> rw [h]

theorem run_ops_bytes_processed (ops : List ParserOp) :
    ∀ p : LogParser, (run_ops p ops).stats.bytes_processed =
      p.stats.bytes_processed + ingested_length ops := by
  induction ops with
  | nil => intro p; simp [run_ops, ingested_length]
  | cons op ops ih =>
      intro p
      cases op with
      | ingest d =>
          rw [show run_ops p (ParserOp.ingest d :: ops) = run_ops (p.process_data d) ops from rfl,
            ih (p.process_data d),
            show ingested_length (ParserOp.ingest d :: ops) = d.length + ingested_length ops
              from rfl]
          show p.stats.bytes_processed + d.length + ingested_length ops =
            p.stats.bytes_processed + (d.length + ingested_length ops)
          omega
      | take_next =>
          rw [show run_ops p (ParserOp.take_next :: ops) = run_ops p.find_next_frame.2 ops from rfl,
            ih p.find_next_frame.2, find_next_frame_bytes_processed]
          rfl

/-- C10 (confirmed): `find_next_frame` never changes `bytes_processed`,
and after any call sequence on one parser instance `bytes_processed`
equals the total length of the byte strings handed to `process_data`. -/
theorem c10_bytes_processed_only_ingest :
    (∀ p : LogParser, p.find_next_frame.2.stats.bytes_processed = p.stats.bytes_processed) ∧
    ∀ (fmt : Option FrameFormat) (ops : List ParserOp),
      (run_ops (LogParser.init fmt) ops).stats.bytes_processed = ingested_length ops := by
  refine ⟨find_next_frame_bytes_processed, fun fmt ops => ?_⟩
  rw [run_ops_bytes_processed ops (LogParser.init fmt)]
  show 0 + ingested_length ops = ingested_length ops
  omega

/-! ### Claim C5: length of recovered records -/

/-- C5 (counterexample): for the configuration with `FRAME_START = 7E`,
`FRAME_END = 7F`, `LENGTH_FIELD_OFFSET = 5`, `LENGTH_FIELD_SIZE = 1` the
buffer `7E 7F 00` makes `find_next_frame` emit a recovered record
(`invalid_frames` goes from 0 to 1) of only 2 bytes, shorter than
`length_field_end + len(FRAME_END) = 7`: the `except` recovery path
searched from `len(FRAME_START) = 1`, not from `length_field_end`. -/
theorem c5_counterexample :
    (LogParser.find_next_frame ⟨⟨[0x7e], [0x7f], 5, 1, true, [0xaa, 0xaa], 8⟩,
        [0x7e, 0x7f, 0x00], ⟨0, 0, 0, 0⟩⟩) =
      (some [0x7e, 0x7f],
        ⟨⟨[0x7e], [0x7f], 5, 1, true, [0xaa, 0xaa], 8⟩, [0x00], ⟨0, 0, 1, 0⟩⟩) ∧
    ([0x7e, 0x7f] : List Nat).length <
      FrameFormat.length_field_end ⟨[0x7e], [0x7f], 5, 1, true, [0xaa, 0xaa], 8⟩ +
        (FrameFormat.FRAME_END ⟨[0x7e], [0x7f], 5, 1, true, [0xaa, 0xaa], 8⟩).length := by
  decide

/-- C5 (corrected): the claim holds for configurations whose
`length_field_end` does not exceed `min_frame_size` (equivalently
`LENGTH_FIELD_OFFSET ≤ len(FRAME_START) + len(FRAME_END)`, true of the
default format): every recovered (invalid) record comes from a
`FRAME_END` search anchored at `length_field_end` and is therefore at
least `length_field_end + len(FRAME_END)` bytes long.  Without that
restriction the `except` recovery path searches from `len(FRAME_START)`
instead and can emit shorter records. -/
theorem c5_recovered_record_length (p : LogParser) (r : List Nat) (q : LogParser)
    (hcfg : p.frame_format.length_field_end ≤ p.frame_format.min_frame_size)
    (h : p.find_next_frame = (some r, q))
    (hinv : q.stats.invalid_frames = p.stats.invalid_frames + 1) :
    p.frame_format.length_field_end + p.frame_format.FRAME_END.length ≤ r.length := by
  rcases find_next_frame_eq p with h0 | ⟨i, h0⟩ | ⟨i, h0⟩
  · rw [h0] at h
    simp at h
  · rcases handle_time_eq p.frame_format (p.buffer.drop i) p.stats with ⟨_, ht⟩ | ht
    · rw [ht] at h0
      rw [h0] at h
      have hq : q = ⟨p.frame_format, (p.buffer.drop i).drop p.frame_format.TIME_FRAME_LENGTH,
          { p.stats with time_frames_found := p.stats.time_frames_found + 1 }⟩ :=
        (congrArg Prod.snd h).symm
      rw [hq] at hinv
      simp at hinv
    · rw [ht] at h0
      rw [h0] at h
      simp at h
  · rcases handle_frame_eq p.frame_format (p.buffer.drop i) p.stats with
      hf | ⟨st, e, hb, hc, hf⟩ | ⟨k, hf⟩
    · rw [hf] at h0
      rw [h0] at h
      simp at h
    · rw [hf] at h0
      rw [h0] at h
      obtain ⟨hse, hm⟩ := bfind_eq_some hb
      have hst : st = p.frame_format.length_field_end := by
        rcases hc with ⟨_, hminle, hlt⟩ | hst
        · omega
        · exact hst
      have hr : r = (p.buffer.drop i).take (e + p.frame_format.FRAME_END.length) :=
        (Option.some_inj.mp (congrArg Prod.fst h)).symm
      have hfit : e + p.frame_format.FRAME_END.length ≤ (p.buffer.drop i).length := hm.1
      have hge : p.frame_format.length_field_end ≤ e := hst ▸ hse
      rw [hr, List.length_take]
      omega
    · rw [hf] at h0
      rw [h0] at h
      have hq : q = ⟨p.frame_format, (p.buffer.drop i).drop k,
          { p.stats with frames_found := p.stats.frames_found + 1 }⟩ :=
        (congrArg Prod.snd h).symm
      rw [hq] at hinv
      simp at hinv

/-- Witness for C5 at the spec's own concrete recovery scenario
`7E FF FF 41 42 7E`. -/
theorem c5_recovered_record_length_witness :
    DEFAULT_FORMAT.length_field_end + DEFAULT_FORMAT.FRAME_END.length ≤
      ([0x7e, 0xff, 0xff, 0x41, 0x42, 0x7e] : List Nat).length :=
  c5_recovered_record_length
    ⟨DEFAULT_FORMAT, [0x7e, 0xff, 0xff, 0x41, 0x42, 0x7e], ⟨0, 0, 0, 0⟩⟩
    [0x7e, 0xff, 0xff, 0x41, 0x42, 0x7e]
    ⟨DEFAULT_FORMAT, [], ⟨0, 0, 1, 0⟩⟩
    (by decide) (by decide) (by decide)

/-! ### Claim C1: chunk-boundary invariance -/

/-- C1 (code bug): the stream `AA AA 00 00 00 00 00 01` — one complete
time record — parses to that record when ingested whole, but to nothing
when ingested as the chunks `AA` and `AA 00 00 00 00 00 01`: the first
`find_next_frame` call finds no marker in the one-byte buffer `AA` and
clears it, destroying the buffered prefix of the time marker. -/
theorem c1_chunk_boundary_dependence :
    (process_stream 4 (LogParser.init none) [[0xaa], [0xaa, 0, 0, 0, 0, 0, 1]]).1 = [] ∧
    (process_stream 4 (LogParser.init none) [[0xaa, 0xaa, 0, 0, 0, 0, 0, 1]]).1 =
      [[0xaa, 0xaa, 0, 0, 0, 0, 0, 1]] := by
  decide

/-! ### Claim C2: round trip of well-formed inputs (default format) -/

/-- From the spec's record taxonomy (§3): a complete time record — the
time marker followed by a six-byte timestamp. -/
def WfTimeRecord (r : List Nat) : Prop :=
  ∃ ts : List Nat, ts.length = 6 ∧ r = 0xaa :: 0xaa :: ts

/-- From the spec's record taxonomy (§3): a well-formed frame — start
marker, two-byte big-endian length field matching the payload length, the
payload, and the end marker terminating the frame exactly. -/
def WfFrameRecord (r : List Nat) : Prop :=
  ∃ (hi lo : Nat) (payload : List Nat), hi < 256 ∧ lo < 256 ∧
    payload.length = hi * 256 + lo ∧
    r = 0x7e :: hi :: lo :: (payload ++ [0x7e])

/-- A well-formed record of the default format. -/
def WfRecord (r : List Nat) : Prop := WfTimeRecord r ∨ WfFrameRecord r

theorem handle_time_emit (fmt : FrameFormat) (buf : List Nat) (s : Stats)
    (h : fmt.TIME_FRAME_LENGTH ≤ buf.length) :
    handle_time fmt buf s =
      (some (buf.take fmt.TIME_FRAME_LENGTH),
        ⟨fmt, buf.drop fmt.TIME_FRAME_LENGTH,
          { s with time_frames_found := s.time_frames_found + 1 }⟩) := by
  unfold handle_time
  rw [if_pos h]

theorem handle_frame_valid (fmt : FrameFormat) (buf : List Nat) (s : Stats)
    (length : Nat) (lb : List Nat)
    (hmin : ¬ buf.length < fmt.min_frame_size)
    (hex : fmt.extract_length_field buf = .ok (length, lb))
    (hexp : ¬ buf.length < fmt.length_field_end + length + fmt.FRAME_END.length)
    (hend : (buf.take (fmt.length_field_end + length + fmt.FRAME_END.length)).drop
        (fmt.length_field_end + length + fmt.FRAME_END.length - fmt.FRAME_END.length) =
      fmt.FRAME_END) :
    handle_frame fmt buf s =
      (some (buf.take (fmt.length_field_end + length + fmt.FRAME_END.length)),
        ⟨fmt, buf.drop (fmt.length_field_end + length + fmt.FRAME_END.length),
          { s with frames_found := s.frames_found + 1 }⟩) := by
  unfold handle_frame
  rw [if_neg hmin, hex]
  show (if buf.length < fmt.length_field_end + length + fmt.FRAME_END.length then
      recover_frame fmt buf s fmt.length_field_end
    else if (buf.take (fmt.length_field_end + length + fmt.FRAME_END.length)).drop
        (fmt.length_field_end + length + fmt.FRAME_END.length - fmt.FRAME_END.length) =
      fmt.FRAME_END then
      (some (buf.take (fmt.length_field_end + length + fmt.FRAME_END.length)),
        ⟨fmt, buf.drop (fmt.length_field_end + length + fmt.FRAME_END.length),
          { s with frames_found := s.frames_found + 1 }⟩)
    else recover_frame fmt buf s fmt.length_field_end) = _
  rw [if_neg hexp, if_pos hend]

theorem find_next_frame_time_at_zero (p : LogParser)
    (hT : bfind p.buffer p.frame_format.TIME_MARKER 0 = some 0) :
    p.find_next_frame = handle_time p.frame_format p.buffer p.stats := by
  simp only [LogParser.find_next_frame]
  rw [hT]
  cases hF : bfind p.buffer p.frame_format.FRAME_START 0 with
  | none =>
      show handle_time p.frame_format (p.buffer.drop 0) p.stats = _
      rw [List.drop_zero]
  | some fi =>
      show (if 0 ≤ fi then handle_time p.frame_format (p.buffer.drop 0) p.stats
        else handle_frame p.frame_format (p.buffer.drop fi) p.stats) = _
      rw [if_pos (Nat.zero_le fi), List.drop_zero]

theorem find_next_frame_frame_at_zero (p : LogParser)
    (hF : bfind p.buffer p.frame_format.FRAME_START 0 = some 0)
    (hT : ∀ ti, bfind p.buffer p.frame_format.TIME_MARKER 0 = some ti → ¬ ti ≤ 0) :
    p.find_next_frame = handle_frame p.frame_format p.buffer p.stats := by
  simp only [LogParser.find_next_frame]
  rw [hF]
  cases hTm : bfind p.buffer p.frame_format.TIME_MARKER 0 with
  | none =>
      show handle_frame p.frame_format (p.buffer.drop 0) p.stats = _
      rw [List.drop_zero]
  | some ti =>
      show (if ti ≤ 0 then handle_time p.frame_format (p.buffer.drop ti) p.stats
        else handle_frame p.frame_format (p.buffer.drop 0) p.stats) = _
      rw [if_neg (hT ti hTm), List.drop_zero]

theorem find_next_frame_wf_time (ts rest : List Nat) (s : Stats) (hts : ts.length = 6) :
    LogParser.find_next_frame ⟨DEFAULT_FORMAT, (0xaa :: 0xaa :: ts) ++ rest, s⟩ =
      (some (0xaa :: 0xaa :: ts),
        ⟨DEFAULT_FORMAT, rest,
          { s with time_frames_found := s.time_frames_found + 1 }⟩) := by
  have hm0 : matchesAt ((0xaa :: 0xaa :: ts) ++ rest) DEFAULT_FORMAT.TIME_MARKER 0 := by
    constructor
    · show 0 + 2 ≤ ((0xaa :: 0xaa :: ts) ++ rest).length
      simp
    · show (((0xaa :: 0xaa :: ts) ++ rest).drop 0).take 2 = [0xaa, 0xaa]
      simp
  have hT := bfind_zero_of_matchesAt hm0
  rw [find_next_frame_time_at_zero ⟨DEFAULT_FORMAT, (0xaa :: 0xaa :: ts) ++ rest, s⟩ hT]
  have htl : (0xaa :: 0xaa :: ts).length = DEFAULT_FORMAT.TIME_FRAME_LENGTH := by
    show (0xaa :: 0xaa :: ts).length = 8
    simp [hts]
  have hle : DEFAULT_FORMAT.TIME_FRAME_LENGTH ≤ ((0xaa :: 0xaa :: ts) ++ rest).length := by
    rw [List.length_append, ← htl]
    omega
  rw [handle_time_emit DEFAULT_FORMAT ((0xaa :: 0xaa :: ts) ++ rest) s hle,
    List.take_left' htl, List.drop_left' htl]

theorem find_next_frame_wf_frame (hi lo : Nat) (payload rest : List Nat) (s : Stats)
    (hhi : hi < 256) (hlo : lo < 256) (hplen : payload.length = hi * 256 + lo) :
    LogParser.find_next_frame
        ⟨DEFAULT_FORMAT, (0x7e :: hi :: lo :: (payload ++ [0x7e])) ++ rest, s⟩ =
      (some (0x7e :: hi :: lo :: (payload ++ [0x7e])),
        ⟨DEFAULT_FORMAT, rest, { s with frames_found := s.frames_found + 1 }⟩) := by
  have hbuflen : ((0x7e :: hi :: lo :: (payload ++ [0x7e])) ++ rest).length =
      4 + payload.length + rest.length := by
    simp
    omega
  have hm0 : matchesAt ((0x7e :: hi :: lo :: (payload ++ [0x7e])) ++ rest)
      DEFAULT_FORMAT.FRAME_START 0 := by
    constructor
    · show 0 + 1 ≤ ((0x7e :: hi :: lo :: (payload ++ [0x7e])) ++ rest).length
      simp
    · show (((0x7e :: hi :: lo :: (payload ++ [0x7e])) ++ rest).drop 0).take 1 = [0x7e]
      simp
  have hF := bfind_zero_of_matchesAt hm0
  have hTnot : ∀ ti, bfind ((0x7e :: hi :: lo :: (payload ++ [0x7e])) ++ rest)
      DEFAULT_FORMAT.TIME_MARKER 0 = some ti → ¬ ti ≤ 0 := by
    intro ti hti hle
    obtain rfl : ti = 0 := Nat.le_zero.mp hle
    have hm := (bfind_eq_some hti).2.2
    rw [List.drop_zero] at hm
    simp [DEFAULT_FORMAT] at hm
  rw [find_next_frame_frame_at_zero
    ⟨DEFAULT_FORMAT, (0x7e :: hi :: lo :: (payload ++ [0x7e])) ++ rest, s⟩ hF hTnot]
  have hmin : ¬ ((0x7e :: hi :: lo :: (payload ++ [0x7e])) ++ rest).length <
      DEFAULT_FORMAT.min_frame_size := by
    show ¬ ((0x7e :: hi :: lo :: (payload ++ [0x7e])) ++ rest).length < 4
    omega
  have hex : DEFAULT_FORMAT.extract_length_field
      ((0x7e :: hi :: lo :: (payload ++ [0x7e])) ++ rest) = .ok (hi * 256 + lo, [hi, lo]) := by
    unfold FrameFormat.extract_length_field
    have hnl : ¬ ((0x7e :: hi :: lo :: (payload ++ [0x7e])) ++ rest).length <
        DEFAULT_FORMAT.length_field_end := by
      show ¬ ((0x7e :: hi :: lo :: (payload ++ [0x7e])) ++ rest).length < 3
      omega
    rw [if_neg hnl]
    have hslice : ((((0x7e :: hi :: lo :: (payload ++ [0x7e])) ++ rest).take
        DEFAULT_FORMAT.length_field_end).drop DEFAULT_FORMAT.LENGTH_FIELD_OFFSET) = [hi, lo] := by
      show ((((0x7e :: hi :: lo :: (payload ++ [0x7e])) ++ rest).take 3).drop 1) = [hi, lo]
      simp
    rw [hslice]
    show (Except.ok (DEFAULT_FORMAT.parse_length [hi, lo], [hi, lo]) :
      Except PyErr (Nat × List Nat)) = Except.ok (hi * 256 + lo, [hi, lo])
    have hp : DEFAULT_FORMAT.parse_length [hi, lo] = hi * 256 + lo := by
      unfold FrameFormat.parse_length
      rw [if_pos (show DEFAULT_FORMAT.LENGTH_FIELD_SIZE = 2 from rfl),
        if_pos (show DEFAULT_FORMAT.LENGTH_FIELD_BIG_ENDIAN = true from rfl)]
      simp only [List.getD_cons_zero, List.getD_cons_succ]
      exact shiftLeft8_lor hi hlo
    rw [hp]
  have hexp : ¬ ((0x7e :: hi :: lo :: (payload ++ [0x7e])) ++ rest).length <
      DEFAULT_FORMAT.length_field_end + (hi * 256 + lo) + DEFAULT_FORMAT.FRAME_END.length := by
    show ¬ ((0x7e :: hi :: lo :: (payload ++ [0x7e])) ++ rest).length < 3 + (hi * 256 + lo) + 1
    omega
  have hrlen : (0x7e :: hi :: lo :: (payload ++ [0x7e])).length =
      DEFAULT_FORMAT.length_field_end + (hi * 256 + lo) + DEFAULT_FORMAT.FRAME_END.length := by
    show (0x7e :: hi :: lo :: (payload ++ [0x7e])).length = 3 + (hi * 256 + lo) + 1
    simp
    omega
  have htakebuf := @List.take_left' Nat (0x7e :: hi :: lo :: (payload ++ [0x7e])) rest _ hrlen
  have hdropbuf := @List.drop_left' Nat (0x7e :: hi :: lo :: (payload ++ [0x7e])) rest _ hrlen
  have hfrontlen : (0x7e :: hi :: lo :: payload).length =
      DEFAULT_FORMAT.length_field_end + (hi * 256 + lo) + DEFAULT_FORMAT.FRAME_END.length -
        DEFAULT_FORMAT.FRAME_END.length := by
    show (0x7e :: hi :: lo :: payload).length = 3 + (hi * 256 + lo) + 1 - 1
    simp
    omega
  have hend : (((0x7e :: hi :: lo :: (payload ++ [0x7e])) ++ rest).take
      (DEFAULT_FORMAT.length_field_end + (hi * 256 + lo) + DEFAULT_FORMAT.FRAME_END.length)).drop
        (DEFAULT_FORMAT.length_field_end + (hi * 256 + lo) + DEFAULT_FORMAT.FRAME_END.length -
          DEFAULT_FORMAT.FRAME_END.length) = DEFAULT_FORMAT.FRAME_END := by
    rw [htakebuf]
    show ((0x7e :: hi :: lo :: payload) ++ [0x7e]).drop
      (DEFAULT_FORMAT.length_field_end + (hi * 256 + lo) + DEFAULT_FORMAT.FRAME_END.length -
        DEFAULT_FORMAT.FRAME_END.length) = [0x7e]
    exact List.drop_left' hfrontlen
  rw [handle_frame_valid DEFAULT_FORMAT ((0x7e :: hi :: lo :: (payload ++ [0x7e])) ++ rest) s
    (hi * 256 + lo) [hi, lo] hmin hex hexp hend, htakebuf, hdropbuf]

theorem drain_succ_some {p q : LogParser} {f : List Nat} (n : Nat)
    (h : p.find_next_frame = (some f, q)) :
    drain (n + 1) p = (f :: (drain n q).1, (drain n q).2) := by
  simp only [drain]
  rw [h]

theorem drain_succ_none {p q : LogParser} (n : Nat)
    (h : p.find_next_frame = (none, q)) :
    drain (n + 1) p = ([], q) := by
  simp only [drain]
  rw [h]

theorem drain_wf_records (rs : List (List Nat)) :
    (∀ r ∈ rs, WfRecord r) → ∀ s : Stats,
      ∃ s' : Stats,
        drain (rs.length + 1) ⟨DEFAULT_FORMAT, rs.flatten, s⟩ = (rs, ⟨DEFAULT_FORMAT, [], s'⟩) ∧
        s'.invalid_frames = s.invalid_frames ∧
        s'.bytes_processed = s.bytes_processed ∧
        s'.frames_found + s'.time_frames_found =
          s.frames_found + s.time_frames_found + rs.length := by
  induction rs with
  | nil =>
      intro _ s
      refine ⟨s, ?_, rfl, rfl, by simp⟩
      have h : LogParser.find_next_frame ⟨DEFAULT_FORMAT, ([] : List Nat), s⟩ =
          (none, ⟨DEFAULT_FORMAT, [], s⟩) :=
        find_next_frame_no_marker ⟨DEFAULT_FORMAT, [], s⟩
          (show ¬ DEFAULT_FORMAT.TIME_MARKER <:+: ([] : List Nat) by decide)
          (show ¬ DEFAULT_FORMAT.FRAME_START <:+: ([] : List Nat) by decide)
      exact drain_succ_none 0 h
  | cons r rs ih =>
      intro hwf s
      have hr := hwf r (List.mem_cons_self r rs)
      have hrest : ∀ x ∈ rs, WfRecord x := fun x hx => hwf x (List.mem_cons_of_mem r hx)
      rcases hr with ⟨ts, hts, rfl⟩ | ⟨hi, lo, payload, hhi, hlo, hplen, rfl⟩
      · obtain ⟨s', hdrain, h1, h2, h3⟩ :=
          ih hrest { s with time_frames_found := s.time_frames_found + 1 }
        refine ⟨s', ?_, by simpa using h1, by simpa using h2, ?_⟩
        · have hstep := find_next_frame_wf_time ts rs.flatten s hts
          have hone := drain_succ_some (rs.length + 1) hstep
          show drain (rs.length + 1 + 1)
            ⟨DEFAULT_FORMAT, (0xaa :: 0xaa :: ts) ++ rs.flatten, s⟩ = _
          rw [hone, hdrain]
        · simp at h3 ⊢
          omega
      · obtain ⟨s', hdrain, h1, h2, h3⟩ :=
          ih hrest { s with frames_found := s.frames_found + 1 }
        refine ⟨s', ?_, by simpa using h1, by simpa using h2, ?_⟩
        · have hstep := find_next_frame_wf_frame hi lo payload rs.flatten s hhi hlo hplen
          have hone := drain_succ_some (rs.length + 1) hstep
          show drain (rs.length + 1 + 1)
            ⟨DEFAULT_FORMAT, (0x7e :: hi :: lo :: (payload ++ [0x7e])) ++ rs.flatten, s⟩ = _
          rw [hone, hdrain]
        · simp at h3 ⊢
          omega

/-- C2 (confirmed, default format): an input that is a gapless
concatenation of well-formed frames and complete time records drains to
exactly the original records in their original order, with
`invalid_frames = 0` and `frames_found + time_frames_found` equal to the
number of records. -/
theorem c2_wellformed_roundtrip (rs : List (List Nat)) (hwf : ∀ r ∈ rs, WfRecord r) :
    ∃ q : LogParser,
      drain (rs.length + 1) ((LogParser.init none).process_data rs.flatten) = (rs, q) ∧
      q.buffer = [] ∧
      q.stats.invalid_frames = 0 ∧
      q.stats.frames_found + q.stats.time_frames_found = rs.length := by
  obtain ⟨s', hdrain, h1, h2, h3⟩ := drain_wf_records rs hwf ⟨0, 0, 0, 0 + rs.flatten.length⟩
  refine ⟨⟨DEFAULT_FORMAT, [], s'⟩, hdrain, rfl, h1, ?_⟩
  simpa using h3

/-- Witness for C2 at a two-record input: the spec's `Hello` frame
followed by a time record with timestamp 1. -/
theorem c2_wellformed_roundtrip_witness :
    ∃ q : LogParser,
      drain (([[0x7e, 0, 5, 0x48, 0x65, 0x6c, 0x6c, 0x6f, 0x7e],
            [0xaa, 0xaa, 0, 0, 0, 0, 0, 1]] : List (List Nat)).length + 1)
        ((LogParser.init none).process_data
          ([[0x7e, 0, 5, 0x48, 0x65, 0x6c, 0x6c, 0x6f, 0x7e],
            [0xaa, 0xaa, 0, 0, 0, 0, 0, 1]] : List (List Nat)).flatten) =
        ([[0x7e, 0, 5, 0x48, 0x65, 0x6c, 0x6c, 0x6f, 0x7e],
          [0xaa, 0xaa, 0, 0, 0, 0, 0, 1]], q) ∧
      q.buffer = [] ∧
      q.stats.invalid_frames = 0 ∧
      q.stats.frames_found + q.stats.time_frames_found =
        ([[0x7e, 0, 5, 0x48, 0x65, 0x6c, 0x6c, 0x6f, 0x7e],
          [0xaa, 0xaa, 0, 0, 0, 0, 0, 1]] : List (List Nat)).length :=
  c2_wellformed_roundtrip
    [[0x7e, 0, 5, 0x48, 0x65, 0x6c, 0x6c, 0x6f, 0x7e], [0xaa, 0xaa, 0, 0, 0, 0, 0, 1]]
    (by
      intro r hr
      simp only [List.mem_cons, List.not_mem_nil, or_false] at hr
      rcases hr with rfl | rfl
      · exact Or.inr ⟨0, 5, [0x48, 0x65, 0x6c, 0x6c, 0x6f], by omega, by omega, by simp, rfl⟩
      · exact Or.inl ⟨[0, 0, 0, 0, 0, 1], rfl, rfl⟩)

end LogParserSpec
